import Mathlib

/-!
Verification of the upstream-synchronization and response-cache core of the
rickmorty-sre-demo service.  Each definition below is a shallow embedding of
one function of the source (app/main.py, app/api.py, app/ingest.py,
app/crud.py, app/page_cache.py); the theorems settle the frozen claims about
those functions.
-/

/-- The synchronized record shape (app/models.py `Character`, as produced by
`filter_character_results` and stored by `crud.upsert_characters`). -/
structure Character where
  id : Int
  name : String
  status : String
  species : String
  origin : String
  image : Option String
  url : Option String
deriving DecidableEq, Repr

/-- Total page count as computed by the `/characters` handler
(app/main.py line 370): `math.ceil(total_count / page_size) if total_count
else 0`, rendered as ceiling division on naturals (the handler validates
`page_size >= 1`). -/
def totalPages (total_count page_size : Nat) : Nat :=
  if total_count = 0 then 0 else (total_count + page_size - 1) / page_size

/-- Out-of-range test of the `/characters` handler (app/main.py lines
371-373): `(total_pages > 0 and page > total_pages) or (total_pages == 0 and
page > 1)`. -/
def outOfRange (page tp : Nat) : Bool :=
  (decide (0 < tp) && decide (tp < page)) || (decide (tp = 0) && decide (1 < page))

/-- The `/characters` response shape built at app/main.py lines 387-396. -/
structure CharPage where
  page : Nat
  page_size : Nat
  total_count : Nat
  total_pages : Nat
  has_prev : Bool
  has_next : Bool
  out_of_range : Bool
  results : List Character
deriving DecidableEq, Repr

/-- Response construction of the `/characters` handler (app/main.py lines
370-396), given the rows and total count returned by
`crud.list_characters`. -/
def buildCharactersPage (page page_size : Nat) (rows : List Character)
    (total_count : Nat) : CharPage :=
  let tp := totalPages total_count page_size
  let oor := outOfRange page tp
  { page := page
    page_size := page_size
    total_count := total_count
    total_pages := tp
    has_prev := decide (1 < page) && !oor
    has_next := decide (page < tp)
    out_of_range := oor
    results := if oor then [] else rows }

/-- Raw upstream character shape as read by `filter_character_results`
(app/api.py lines 171-202): the fields the source inspects, with
`originName` standing for the nested `origin.name` lookup
(`(ch.get("origin") or \x7b\x7d).get("name")`). -/
structure RawCharacter where
  id : Int
  name : String
  status : String
  species : String
  originName : Option String
  image : Option String
  url : Option String
deriving DecidableEq, Repr

/-- Body of one upstream page response as consumed by
`fetch_all_characters` (app/api.py lines 163-166): the `results` list and
the truthiness of `info.next`. -/
structure PageBody where
  results : List RawCharacter
  next : Bool
deriving DecidableEq, Repr

/-- One scripted outcome of a single `client.get` call inside
`_request_with_retry`: either a response carrying a status code, an optional
`Retry-After` header and a body, or a transient transport error (the
`httpx.ReadTimeout`/`ConnectTimeout`/`RemoteProtocolError`/`TransportError`
family caught at app/api.py lines 114-119). -/
inductive Outcome where
  | resp (status : Nat) (retryAfter : Option String) (body : PageBody)
  | transport
deriving DecidableEq, Repr

/-- Decimal value of an all-digit character list, as `float(value)` computes
it on a string that passed `value.isdigit()`. -/
def digitsToNat (l : List Char) : Nat :=
  l.foldl (fun n c => 10 * n + (c.toNat - 48)) 0

/-- `_parse_retry_after` (app/api.py lines 31-54).  The integer-seconds
branch (`value.isdigit()` then `float(value)`) is translated directly; the
HTTP-date branch depends on the wall clock and the email date parser, so it
is abstracted by the oracle `parsedate`, which yields the seconds-from-now
of a successfully parsed HTTP-date and `none` on a parse failure; the source
then floors the result at 0. -/
def parseRetryAfter (parsedate : String → Option ℚ) : Option String → Option ℚ
  | none => none
  | some v =>
    if v = "" then none
    else if v.toList.all Char.isDigit then some ((digitsToNat v.toList : Nat) : ℚ)
    else
      match parsedate v with
      | some secs => some (max 0 secs)
      | none => none

/-- Failure modes of the retry loop: the 503 `HTTPException` raised after
exhausting retries (app/api.py lines 138-140), a non-retryable status
surfaced by `r.raise_for_status()` (line 104), and the out-of-script marker
for an environment that supplied no further response (never reached in the
theorems below). -/
inductive FetchError where
  | serviceUnavailable (status : Nat) (detail : String)
  | httpStatus (status : Nat)
  | noScript
deriving DecidableEq, Repr

/-- Environment and trace threaded through the fetch client: the remaining
scripted outcomes for successive `client.get` calls, the remaining stream of
`random.random()` draws, the sleeps performed so far (in order), and the
number of attempts (i.e. `client.get` calls) made so far. -/
structure FetchTrace where
  script : List Outcome
  jitters : List ℚ
  sleeps : List ℚ
  attempts : Nat
deriving DecidableEq, Repr

/-- Loop body of `_request_with_retry` (app/api.py lines 79-129), indexed by
the number of attempts remaining.  A 429 or 5xx response sleeps for the
parsed `Retry-After` value when present, otherwise for
`backoff + random.random() * 0.25`; a transport error sleeps for the bare
backoff; both double the backoff capped at 8 and retry.  Any other status
returns the response when it is a 2xx success and raises
(`r.raise_for_status()`) otherwise.  When no attempts remain the 503
`HTTPException` of lines 138-140 is raised. -/
def requestWithRetryAux (parsedate : String → Option ℚ) :
    Nat → ℚ → FetchTrace → Except FetchError PageBody × FetchTrace
  | 0, _, tr =>
    (.error (.serviceUnavailable 503 "Upstream API unavailable after retries"), tr)
  | remaining + 1, backoff, tr =>
    match tr.script with
    | [] => (.error .noScript, tr)
    | o :: rest =>
      let tr1 : FetchTrace :=
        { tr with script := rest, attempts := tr.attempts + 1 }
      match o with
      | .transport =>
          requestWithRetryAux parsedate remaining (min (backoff * 2) 8)
            { tr1 with sleeps := tr1.sleeps ++ [backoff] }
      | .resp status ra body =>
          if status = 429 ∨ (500 ≤ status ∧ status < 600) then
            match parseRetryAfter parsedate ra with
            | some q =>
                requestWithRetryAux parsedate remaining (min (backoff * 2) 8)
                  { tr1 with sleeps := tr1.sleeps ++ [q] }
            | none =>
                requestWithRetryAux parsedate remaining (min (backoff * 2) 8)
                  { tr1 with
                    jitters := tr1.jitters.tail
                    sleeps := tr1.sleeps ++ [backoff + tr1.jitters.headD 0 * (1/4)] }
          else if 200 ≤ status ∧ status < 300 then
            (.ok body, tr1)
          else
            (.error (.httpStatus status), tr1)

/-- `_request_with_retry` (app/api.py lines 57-140): up to `maxRetries`
attempts (`MAX_RETRIES`, default 5) starting from backoff 0.5. -/
def requestWithRetry (parsedate : String → Option ℚ) (maxRetries : Nat)
    (tr : FetchTrace) : Except FetchError PageBody × FetchTrace :=
  requestWithRetryAux parsedate maxRetries (1/2) tr

/-- Page walk of `fetch_all_characters` (app/api.py lines 157-168): extend
the accumulated results with each page body and stop when `info.next` is
falsy.  Fuel bounds the number of pages; it is instantiated above the script
length, which bounds the number of successful requests. -/
def fetchAllAux (parsedate : String → Option ℚ) (maxRetries : Nat) :
    Nat → FetchTrace → Except FetchError (List RawCharacter) × FetchTrace
  | 0, tr => (.error .noScript, tr)
  | fuel + 1, tr =>
    match requestWithRetry parsedate maxRetries tr with
    | (.error e, tr2) => (.error e, tr2)
    | (.ok body, tr2) =>
      if body.next then
        match fetchAllAux parsedate maxRetries fuel tr2 with
        | (.ok rest, tr3) => (.ok (body.results ++ rest), tr3)
        | (.error e, tr3) => (.error e, tr3)
      else
        (.ok body.results, tr2)

/-- `fetch_all_characters` (app/api.py lines 148-168) run against a scripted
environment. -/
def fetchAllCharacters (parsedate : String → Option ℚ) (maxRetries : Nat)
    (script : List Outcome) (jitters : List ℚ) :
    Except FetchError (List RawCharacter) × FetchTrace :=
  fetchAllAux parsedate maxRetries (script.length + 1) ⟨script, jitters, [], 0⟩

/-- An outcome the retry loop retries on: a transient transport error, HTTP
429, or a 5xx status (app/api.py lines 83 and 114-119). -/
def retryableOutcome : Outcome → Bool
  | .transport => true
  | .resp status _ _ =>
      decide (status = 429) || (decide (500 ≤ status) && decide (status < 600))

/-- `filter_character_results` (app/api.py lines 171-202): keep records with
species "Human" and status "Alive" whose origin name (defaulted to the empty
string when absent) starts with "Earth", projected down to the stored
`Character` shape with origin flattened to a plain string. -/
def filter_character_results (chars : List RawCharacter) : List Character :=
  chars.filterMap fun ch =>
    if ch.species ≠ "Human" ∨ ch.status ≠ "Alive" then none
    else
      let origin := ch.originName.getD ""
      if origin.startsWith "Earth" then
        some ⟨ch.id, ch.name, ch.status, ch.species, origin, ch.image, ch.url⟩
      else none

/-- `session.merge(Character(**it))` as issued per item by
`upsert_characters` (app/crud.py line 65): when a row with the same primary
key `id` exists, overwrite all its fields; otherwise insert a new row. -/
def mergeChar (store : List Character) (c : Character) : List Character :=
  if store.any (fun r => decide (r.id = c.id)) then
    store.map fun r => if r.id = c.id then c else r
  else store ++ [c]

/-- `upsert_characters` (app/crud.py lines 48-68): merge each item in order
and return the new store together with the number of items processed. -/
def upsert_characters (store : List Character) (items : List Character) :
    List Character × Nat :=
  (items.foldl mergeChar store, items.length)

/-- `count_characters` (app/crud.py lines 34-45): the store row count. -/
def count_characters (store : List Character) : Nat :=
  store.length

/-- The store after a sequence of `upsert_characters` calls starting from an
empty store. -/
def applyUpserts (batches : List (List Character)) : List Character :=
  batches.foldl (fun s b => (upsert_characters s b).1) []

/-- A sample stored record used by concrete witnesses. -/
def rickC : Character :=
  ⟨1, "Rick Sanchez", "Alive", "Human", "Earth (C-137)", none, none⟩

/-- A second sample stored record used by concrete witnesses. -/
def mortyC : Character :=
  ⟨2, "Morty Smith", "Alive", "Human", "Earth (C-137)", none, none⟩

/-- Advisory-lock key used by `initial_sync_if_empty`
(app/ingest.py line 75). -/
def SEED_LOCK_KEY : Nat := 0xC0FFEE

/-- Advisory-lock key used by `refresh_if_stale` (app/ingest.py line 129). -/
def REFRESH_LOCK_KEY : Nat := 0xBEEFED

/-- Outcome of the `SELECT pg_try_advisory_lock` query issued by
`_pg_advisory_lock` (app/ingest.py line 45): the query returns a scalar
(possibly NULL) or raises on an engine without the function. -/
inductive LockAttemptResult where
  | scalar (b : Option Bool)
  | errored
deriving DecidableEq, Repr

/-- The `have` flag computed at app/ingest.py lines 43-51: `bool(scalar)`
when the query returned a non-NULL scalar, and True both on a NULL scalar
and on a raising engine (fail open). -/
def haveLock : LockAttemptResult → Bool
  | .scalar (some b) => b
  | .scalar none => true
  | .errored => true

/-- Observable actions of the synchronization pipeline, recorded in call
order: the advisory lock try and release statements, the calls into
`crud.count_characters`, `api.fetch_all_characters`,
`crud.upsert_characters`, and `page_cache.invalidate_all`. -/
inductive Ev where
  | lockTry (key : Nat)
  | lockRelease (key : Nat)
  | countCall
  | fetchCall
  | upsertCall
  | cacheInvalidate
deriving DecidableEq, Repr

/-- Failures the awaited collaborators may raise into the pipeline. -/
inductive IngestErr where
  | dbError
  | fetchError (e : FetchError)
  | upsertError
deriving DecidableEq, Repr

/-- Environment of one pipeline operation: the advisory-lock query outcome
and the outcomes of the count, fetch and upsert calls when they are made.
`page_cache.invalidate_all` needs no knob: its failure is swallowed at
app/ingest.py lines 92-97 and 141-146 and changes nothing observable
here. -/
structure SyncEnv where
  lockAttempt : LockAttemptResult
  countResult : Except IngestErr Nat
  fetchResult : Except IngestErr (List RawCharacter)
  upsertResult : List Character → Except IngestErr Nat

/-- Decidable equality for `Except` results, used to compare run outcomes on
concrete inputs. -/
instance {ε α : Type} [DecidableEq ε] [DecidableEq α] :
    DecidableEq (Except ε α) := fun x y =>
  match x, y with
  | .ok a, .ok b =>
    if h : a = b then .isTrue (by rw [h])
    else .isFalse (by intro hc; injection hc; contradiction)
  | .error a, .error b =>
    if h : a = b then .isTrue (by rw [h])
    else .isFalse (by intro hc; injection hc; contradiction)
  | .ok _, .error _ => .isFalse (by intro hc; exact Except.noConfusion hc)
  | .error _, .ok _ => .isFalse (by intro hc; exact Except.noConfusion hc)

/-- Result of one pipeline operation: the returned value or propagated
error, the recorded actions in order, and the value of the module-global
`_last_refresh_ts` afterwards. -/
structure SyncResult where
  result : Except IngestErr Nat
  events : List Ev
  lastRefreshTs : Option ℚ
deriving DecidableEq, Repr

/-- `_pg_advisory_lock` (app/ingest.py lines 36-61) wrapped around a body:
the lock query is attempted on entry, the body runs with the computed
`have` flag, and on exit the unlock statement is attempted (errors
suppressed) exactly when `have` is set — also when the body raised. -/
def withAdvisoryLock (key : Nat) (attempt : LockAttemptResult)
    (body : Bool → SyncResult) : SyncResult :=
  let h := haveLock attempt
  let r := body h
  { r with
    events := Ev.lockTry key ::
      (r.events ++ (if h then [Ev.lockRelease key] else [])) }

/-- `initial_sync_if_empty` (app/ingest.py lines 64-107).  `ts0` is the
value of `_last_refresh_ts` on entry and `tDone` the wall-clock value of
the `time.time()` call on the success path. -/
def initial_sync_if_empty (env : SyncEnv) (ts0 : Option ℚ) (tDone : ℚ) :
    SyncResult :=
  withAdvisoryLock SEED_LOCK_KEY env.lockAttempt fun have_lock =>
    if !have_lock then ⟨.ok 0, [], ts0⟩
    else
      match env.countResult with
      | .error e => ⟨.error e, [.countCall], ts0⟩
      | .ok count =>
        if 0 < count then ⟨.ok 0, [.countCall], ts0⟩
        else
          match env.fetchResult with
          | .error e => ⟨.error e, [.countCall, .fetchCall], ts0⟩
          | .ok raw =>
            match env.upsertResult (filter_character_results raw) with
            | .error e => ⟨.error e, [.countCall, .fetchCall, .upsertCall], ts0⟩
            | .ok n =>
              ⟨.ok n,
                [.countCall, .fetchCall, .upsertCall] ++
                  (if n ≠ 0 then [.cacheInvalidate] else []),
                some tDone⟩

/-- Locked section of `refresh_if_stale` (app/ingest.py lines 130-156):
fetch, filter, upsert, conditionally invalidate the page cache, then set
`_last_refresh_ts` — reached only when the staleness gate passed. -/
def refreshBody (env : SyncEnv) (ts0 : Option ℚ) (tDone : ℚ) : SyncResult :=
  withAdvisoryLock REFRESH_LOCK_KEY env.lockAttempt fun have_lock =>
    if !have_lock then ⟨.ok 0, [], ts0⟩
    else
      match env.fetchResult with
      | .error e => ⟨.error e, [.fetchCall], ts0⟩
      | .ok raw =>
        match env.upsertResult (filter_character_results raw) with
        | .error e => ⟨.error e, [.fetchCall, .upsertCall], ts0⟩
        | .ok n =>
          ⟨.ok n,
            [.fetchCall, .upsertCall] ++
              (if n ≠ 0 then [.cacheInvalidate] else []),
            some tDone⟩

/-- `refresh_if_stale` (app/ingest.py lines 110-156): when
`_last_refresh_ts` is set and `now - _last_refresh_ts <= REFRESH_TTL`
(`ttl`, default 600) return 0 before touching the lock; otherwise run the
locked refresh.  `tNow` is the `time.time()` value of the staleness check
and `tDone` that of the success-path timestamp update. -/
def refresh_if_stale (ttl : ℚ) (env : SyncEnv) (ts0 : Option ℚ)
    (tNow tDone : ℚ) : SyncResult :=
  match ts0 with
  | some t =>
    if tNow - t ≤ ttl then ⟨.ok 0, [], some t⟩
    else refreshBody env (some t) tDone
  | none => refreshBody env none tDone

/-- Structured cache key for a paged `/characters` response
(app/page_cache.py lines 11-17). -/
structure PageKey where
  sort : String
  order : String
  page : Nat
  page_size : Nat
deriving DecidableEq, Repr

/-- The `OrderedDict` store of `PageCache` (app/page_cache.py line 35): an
association list of key to (insertion timestamp, cached response) kept in
recency order, least-recently-used first. -/
abbrev PCStore := List (PageKey × ℚ × CharPage)

/-- `self._store.get(key)`: the binding of `k` if present. -/
def odGet (store : PCStore) (k : PageKey) : Option (ℚ × CharPage) :=
  match store with
  | [] => none
  | (k0, e) :: rest => if k0 = k then some e else odGet rest k

/-- `self._store.pop(key, None)`: remove the binding of `k` if present. -/
def odErase (store : PCStore) (k : PageKey) : PCStore :=
  match store with
  | [] => []
  | (k0, e) :: rest =>
    if k0 = k then odErase rest k else (k0, e) :: odErase rest k

/-- `self._store[key] = entry`: overwrite in place or append. -/
def odSet (store : PCStore) (k : PageKey) (e : ℚ × CharPage) : PCStore :=
  match store with
  | [] => [(k, e)]
  | (k0, e0) :: rest =>
    if k0 = k then (k, e) :: rest else (k0, e0) :: odSet rest k e

/-- `self._store.move_to_end(key)`: detach the binding of `k` and reattach
it at the most-recently-used end. -/
def odMoveToEnd (store : PCStore) (k : PageKey) : PCStore :=
  match odGet store k with
  | none => store
  | some e => odErase store k ++ [(k, e)]

/-- `PageCache.get` (app/page_cache.py lines 42-52) at wall-clock `now`: a
fresh hit (`now - ts <= ttl`) moves the entry to most-recently-used and
returns it; an expired entry is popped and absent returned; a miss returns
absent. -/
def pcGet (ttl now : ℚ) (store : PCStore) (k : PageKey) :
    Option CharPage × PCStore :=
  match odGet store k with
  | none => (none, store)
  | some (ts, val) =>
    if now - ts > ttl then (none, odErase store k)
    else (some val, odMoveToEnd store k)

/-- The `while len > cap: popitem(last=False)` loop of `PageCache.put`
(app/page_cache.py lines 58-59): pop the least-recently-used front entry
while the size exceeds capacity.  Each popped entry is returned as an
eviction record carrying the keys still present at the moment it was
popped. -/
def evictLoop (cap : Nat) : PCStore → PCStore × List (PageKey × List PageKey)
  | [] => ([], [])
  | e :: es =>
    if cap < es.length + 1 then
      let r := evictLoop cap es
      (r.1, (e.1, es.map (fun p => p.1)) :: r.2)
    else (e :: es, [])

/-- `PageCache.put` (app/page_cache.py lines 54-59) at wall-clock `now`:
store the entry with timestamp `now`, move it to most-recently-used, then
enforce capacity from the least-recently-used end.  Returns the new store
together with the evictions performed. -/
def pcPut (cap : Nat) (now : ℚ) (store : PCStore) (k : PageKey)
    (v : CharPage) : PCStore × List (PageKey × List PageKey) :=
  evictLoop cap (odMoveToEnd (odSet store k (now, v)) k)

/-- `PageCache.invalidate_all` (app/page_cache.py lines 61-63). -/
def pcInvalidateAll (_store : PCStore) : PCStore := []

/-- One operation of a `PageCache` usage sequence, carrying the wall-clock
time at which it runs. -/
inductive CacheOp where
  | get (now : ℚ) (k : PageKey)
  | put (now : ℚ) (k : PageKey) (v : CharPage)
deriving DecidableEq, Repr

/-- Ghost last-touch table: the logical step at which each key was last
moved to most-recently-used (by a `put` or a fresh `get` hit). -/
def touchOf (m : List (PageKey × Nat)) (k : PageKey) : Nat :=
  match m with
  | [] => 0
  | (k0, n) :: rest => if k0 = k then n else touchOf rest k

/-- Update the ghost last-touch table. -/
def setTouch (m : List (PageKey × Nat)) (k : PageKey) (n : Nat) :
    List (PageKey × Nat) :=
  match m with
  | [] => [(k, n)]
  | (k0, n0) :: rest =>
    if k0 = k then (k, n) :: rest else (k0, n0) :: setTouch rest k n

/-- An instrumented cache run: the store, the ghost last-touch table and
logical clock, and every capacity eviction performed so far, each recorded
as (evicted key, keys still present, last-touch table at that moment). -/
structure CacheRun where
  store : PCStore
  touch : List (PageKey × Nat)
  clock : Nat
  evictions : List (PageKey × List PageKey × List (PageKey × Nat))
deriving DecidableEq, Repr

/-- One instrumented step: apply `pcGet`/`pcPut` to the store exactly as the
source does, and additionally bump the ghost last-touch entry of the key on
the operations that move it to most-recently-used (a fresh `get` hit and
every `put`). -/
def cacheStep (ttl : ℚ) (cap : Nat) (r : CacheRun) : CacheOp → CacheRun
  | .get now k =>
    let res := pcGet ttl now r.store k
    if res.1.isSome then
      { r with
        store := res.2
        touch := setTouch r.touch k r.clock
        clock := r.clock + 1 }
    else { r with store := res.2 }
  | .put now k v =>
    let touch2 := setTouch r.touch k r.clock
    let res := pcPut cap now r.store k v
    { store := res.1
      touch := touch2
      clock := r.clock + 1
      evictions := r.evictions ++ res.2.map (fun p => (p.1, p.2, touch2)) }

/-- A whole instrumented run from the empty cache. -/
def runCache (ttl : ℚ) (cap : Nat) (ops : List CacheOp) : CacheRun :=
  ops.foldl (cacheStep ttl cap) ⟨[], [], 0, []⟩

/-- Sample page keys and value for concrete cache witnesses. -/
def pk1 : PageKey := ⟨"id", "asc", 1, 20⟩

/-- A second sample page key. -/
def pk2 : PageKey := ⟨"id", "asc", 2, 20⟩

/-- A third sample page key. -/
def pk3 : PageKey := ⟨"name", "desc", 1, 50⟩

/-- A sample cached response value. -/
def samplePage : CharPage := buildCharactersPage 1 20 [rickC, mortyC] 2

/-- Invariant of an instrumented cache run: the store respects capacity, its
keys are unique, its recency order coincides with ascending last-touch
order, all recorded touches predate the clock, and every recorded eviction
removed the least-recently-touched key among the entries present. -/
def CacheInv (cap : Nat) (r : CacheRun) : Prop :=
  r.store.length ≤ cap ∧
  (r.store.map fun p => p.1).Nodup ∧
  r.store.Pairwise (fun a b => touchOf r.touch a.1 < touchOf r.touch b.1) ∧
  (∀ p ∈ r.store, touchOf r.touch p.1 < r.clock) ∧
  (∀ rec ∈ r.evictions, ∀ k2 ∈ rec.2.1,
    touchOf rec.2.2 rec.1 < touchOf rec.2.2 k2)

/-- Claim C1 counterexample: on an empty store (`total_count = 0`, so
`total_pages = 0`) the request for page 1 exceeds the computed total page
count, yet the handler reports `out_of_range = false`.  So `out_of_range` is
not true exactly when the requested page exceeds the total page count. -/
theorem C1_cex :
    (buildCharactersPage 1 20 [] 0).total_pages = 0 ∧
    (buildCharactersPage 1 20 [] 0).total_pages < 1 ∧
    (buildCharactersPage 1 20 [] 0).out_of_range = false := by
  decide

/-- Claim C1 (amended): `out_of_range` is true exactly when either
`total_pages > 0` and the requested page exceeds it, or the store is empty
(`total_pages = 0`) and the requested page exceeds 1; in particular whenever
`total_pages > 0` it is exactly `page > total_pages`.  Whenever
`out_of_range` is true, `results` is the empty list while `total_count` and
`total_pages` still reflect the true store state. -/
theorem C1_out_of_range_amended (page page_size total_count : Nat)
    (rows : List Character) :
    ((buildCharactersPage page page_size rows total_count).out_of_range = true ↔
      ((0 < totalPages total_count page_size ∧
          totalPages total_count page_size < page) ∨
        (totalPages total_count page_size = 0 ∧ 1 < page))) ∧
    (0 < totalPages total_count page_size →
      ((buildCharactersPage page page_size rows total_count).out_of_range = true ↔
        totalPages total_count page_size < page)) ∧
    ((buildCharactersPage page page_size rows total_count).out_of_range = true →
      (buildCharactersPage page page_size rows total_count).results = [] ∧
      (buildCharactersPage page page_size rows total_count).total_count = total_count ∧
      (buildCharactersPage page page_size rows total_count).total_pages =
        totalPages total_count page_size) := by
  refine ⟨?_, ?_, ?_⟩
  · simp [buildCharactersPage, outOfRange]
  · intro htp
    simp [buildCharactersPage, outOfRange]
    omega
  · intro h
    simp only [buildCharactersPage] at h ⊢
    simp [h]

/-- Claim C1 amended witness: a concrete out-of-range request (page 5 of a
3-row store at page size 2) where the amended theorem yields empty results
and faithful totals. -/
theorem C1_out_of_range_amended_witness :
    (buildCharactersPage 5 2 [] 3).out_of_range = true ∧
    (buildCharactersPage 5 2 [] 3).results = [] ∧
    (buildCharactersPage 5 2 [] 3).total_count = 3 :=
  ⟨by decide,
    ((C1_out_of_range_amended 5 2 3 []).2.2 (by decide)).1,
    ((C1_out_of_range_amended 5 2 3 []).2.2 (by decide)).2.1⟩

/-- Claim C10: `has_prev` is true exactly when `page > 1` and the page is not
out of range; `has_next` is true exactly when `page < total_pages`; for any
out-of-range page both are false. -/
theorem C10_has_prev_has_next (page page_size total_count : Nat)
    (rows : List Character) :
    ((buildCharactersPage page page_size rows total_count).has_prev = true ↔
      1 < page ∧
        (buildCharactersPage page page_size rows total_count).out_of_range = false) ∧
    ((buildCharactersPage page page_size rows total_count).has_next = true ↔
      page < (buildCharactersPage page page_size rows total_count).total_pages) ∧
    ((buildCharactersPage page page_size rows total_count).out_of_range = true →
      (buildCharactersPage page page_size rows total_count).has_prev = false ∧
      (buildCharactersPage page page_size rows total_count).has_next = false) := by
  refine ⟨?_, ?_, ?_⟩
  · simp [buildCharactersPage]
  · simp [buildCharactersPage]
  · intro h
    simp only [buildCharactersPage, outOfRange] at h ⊢
    constructor
    · simp [h]
    · simp only [Bool.or_eq_true, Bool.and_eq_true, decide_eq_true_eq] at h
      rcases h with ⟨h1, h2⟩ | ⟨h1, h2⟩ <;> simp <;> omega

/-- Claim C10 witness: concrete evaluation of the biconditionals on page 2 of
a 30-row store at page size 10 (in range, so `has_prev` holds) and on an
out-of-range page. -/
theorem C10_has_prev_has_next_witness :
    (buildCharactersPage 2 10 [] 30).has_prev = true ∧
    (buildCharactersPage 9 10 [] 30).has_prev = false ∧
    (buildCharactersPage 9 10 [] 30).has_next = false :=
  ⟨(C10_has_prev_has_next 2 10 30 []).1.mpr ⟨by decide, by decide⟩,
    ((C10_has_prev_has_next 9 10 30 []).2.2 (by decide)).1,
    ((C10_has_prev_has_next 9 10 30 []).2.2 (by decide)).2⟩

/-- Claim C2: against the upstream response sequence [500, 429 with
Retry-After 1, 200 (page 1 with a next cursor), 200 (page 2, no next)],
`fetch_all_characters` returns the page-1 results concatenated with the
page-2 results and performs exactly two retry sleeps, the second sleeping
exactly the literal 1-second Retry-After directive (the first sleeps the
initial 0.5 backoff plus the jitter draw scaled by 0.25). -/
theorem C2_retry_sequence (parsedate : String → Option ℚ) (j : ℚ) (js : List ℚ)
    (b500 b429 : PageBody) (p1 p2 : List RawCharacter) :
    fetchAllCharacters parsedate 5
        [.resp 500 none b500, .resp 429 (some "1") b429,
          .resp 200 none ⟨p1, true⟩, .resp 200 none ⟨p2, false⟩] (j :: js) =
      (.ok (p1 ++ p2), ⟨[], js, [1/2 + j * (1/4), 1], 4⟩) := by
  rfl

lemma requestWithRetryAux_exhausts (parsedate : String → Option ℚ) :
    ∀ (m : Nat) (backoff : ℚ) (tr : FetchTrace),
      (∀ o ∈ tr.script, retryableOutcome o = true) → m ≤ tr.script.length →
      (requestWithRetryAux parsedate m backoff tr).1 =
          .error (.serviceUnavailable 503 "Upstream API unavailable after retries") ∧
      (requestWithRetryAux parsedate m backoff tr).2.attempts = tr.attempts + m := by
  intro m
  induction m with
  | zero =>
    intro backoff tr _ _
    exact ⟨rfl, by simp [requestWithRetryAux]⟩
  | succ n ih =>
    rintro backoff ⟨script, js, sl, att⟩ hall hlen
    match script, hall, hlen with
    | o :: rest, hall, hlen =>
      have hrest : ∀ x ∈ rest, retryableOutcome x = true := by
        intro x hx; exact hall x (List.mem_cons_of_mem _ hx)
      have hlen2 : n ≤ rest.length := by
        simpa using Nat.lt_succ_iff.mp (Nat.lt_of_lt_of_le (Nat.lt_succ_self n) (by simpa using hlen))
      cases o with
      | transport =>
        have h := ih (min (backoff * 2) 8)
          ⟨rest, js, sl ++ [backoff], att + 1⟩ hrest hlen2
        refine ⟨?_, ?_⟩
        · simpa [requestWithRetryAux] using h.1
        · have := h.2
          simp only [requestWithRetryAux]
          simp only at this
          omega
      | resp status ra body =>
        have hretry : status = 429 ∨ (500 ≤ status ∧ status < 600) := by
          have := hall _ (List.mem_cons_self _ _)
          simp only [retryableOutcome, Bool.or_eq_true, Bool.and_eq_true,
            decide_eq_true_eq] at this
          tauto
        cases hpr : parseRetryAfter parsedate ra with
        | some q =>
          have h := ih (min (backoff * 2) 8)
            ⟨rest, js, sl ++ [q], att + 1⟩ hrest hlen2
          refine ⟨?_, ?_⟩
          · simpa [requestWithRetryAux, hretry, hpr] using h.1
          · have := h.2
            simp only [requestWithRetryAux, hretry, hpr, if_pos]
            simp only at this
            omega
        | none =>
          have h := ih (min (backoff * 2) 8)
            ⟨rest, List.tail js, sl ++ [backoff + js.headD 0 * (1/4)], att + 1⟩ hrest hlen2
          refine ⟨?_, ?_⟩
          · simpa [requestWithRetryAux, hretry, hpr] using h.1
          · have := h.2
            simp only [requestWithRetryAux, hretry, hpr, if_pos]
            simp only at this
            omega

/-- Claim C3: when every one of the `maxRetries` attempts ends in a
retryable outcome (HTTP 429, a 5xx status, or a transient transport error),
`_request_with_retry` fails after exactly `maxRetries` attempts with the
distinguished 503 "Upstream API unavailable after retries" condition, and
`fetch_all_characters` propagates that same failure to its caller. -/
theorem C3_exhausted_propagates (parsedate : String → Option ℚ)
    (maxRetries : Nat) (script : List Outcome) (js : List ℚ)
    (hall : ∀ o ∈ script, retryableOutcome o = true)
    (hlen : maxRetries ≤ script.length) :
    (requestWithRetry parsedate maxRetries ⟨script, js, [], 0⟩).1 =
        .error (.serviceUnavailable 503 "Upstream API unavailable after retries") ∧
    (requestWithRetry parsedate maxRetries ⟨script, js, [], 0⟩).2.attempts =
        maxRetries ∧
    (fetchAllCharacters parsedate maxRetries script js).1 =
        .error (.serviceUnavailable 503 "Upstream API unavailable after retries") := by
  have h := requestWithRetryAux_exhausts parsedate maxRetries (1/2)
    ⟨script, js, [], 0⟩ hall hlen
  refine ⟨h.1, by simpa [requestWithRetry] using h.2, ?_⟩
  have hres : (requestWithRetry parsedate maxRetries ⟨script, js, [], 0⟩).1 =
      .error (.serviceUnavailable 503 "Upstream API unavailable after retries") := h.1
  unfold fetchAllCharacters
  rcases hq : requestWithRetry parsedate maxRetries ⟨script, js, [], 0⟩ with ⟨r, tr2⟩
  rw [hq] at hres
  simp only at hres
  subst hres
  simp only [fetchAllAux]
  rw [hq]

/-- Claim C3 witness: with `maxRetries = 2` and a script of one transport
error followed by one 500 response, the retry loop fails with the 503
condition after exactly 2 attempts and the page walk propagates it. -/
theorem C3_exhausted_propagates_witness :
    (requestWithRetry (fun _ => none) 2
        ⟨[.transport, .resp 500 none ⟨[], false⟩], [], [], 0⟩).1 =
        .error (.serviceUnavailable 503 "Upstream API unavailable after retries") ∧
    (requestWithRetry (fun _ => none) 2
        ⟨[.transport, .resp 500 none ⟨[], false⟩], [], [], 0⟩).2.attempts = 2 ∧
    (fetchAllCharacters (fun _ => none) 2
        [.transport, .resp 500 none ⟨[], false⟩] []).1 =
        .error (.serviceUnavailable 503 "Upstream API unavailable after retries") :=
  C3_exhausted_propagates (fun _ => none) 2
    [.transport, .resp 500 none ⟨[], false⟩] [] (by decide) (by decide)

lemma mergeChar_ids_toFinset (s : List Character) (c : Character) :
    ((mergeChar s c).map (fun r => r.id)).toFinset =
      insert c.id ((s.map (fun r => r.id)).toFinset) := by
  by_cases h : s.any (fun r => decide (r.id = c.id))
  · have hids : (s.map fun r => if r.id = c.id then c else r).map (fun r => r.id) =
        s.map (fun r => r.id) := by
      rw [List.map_map]
      refine List.map_congr_left ?_
      intro r _
      by_cases hr : r.id = c.id <;> simp [hr]
    have hmem : c.id ∈ (s.map (fun r => r.id)).toFinset := by
      simp only [List.any_eq_true, decide_eq_true_eq] at h
      obtain ⟨r, hr, hid⟩ := h
      simp only [List.mem_toFinset, List.mem_map]
      exact ⟨r, hr, hid⟩
    simp [mergeChar, h, hids, Finset.insert_eq_self.mpr hmem]
  · simp only [mergeChar, h, if_false, Bool.false_eq_true]
    ext x
    simp [or_comm]

lemma mergeChar_ids_nodup (s : List Character) (c : Character)
    (hs : (s.map (fun r => r.id)).Nodup) :
    ((mergeChar s c).map (fun r => r.id)).Nodup := by
  by_cases h : s.any (fun r => decide (r.id = c.id))
  · have hids : (s.map fun r => if r.id = c.id then c else r).map (fun r => r.id) =
        s.map (fun r => r.id) := by
      rw [List.map_map]
      refine List.map_congr_left ?_
      intro r _
      by_cases hr : r.id = c.id <;> simp [hr]
    simpa [mergeChar, h, hids] using hs
  · have hnotin : c.id ∉ s.map (fun r => r.id) := by
      simp only [List.any_eq_true, decide_eq_true_eq] at h
      simp only [List.mem_map, not_exists, not_and]
      intro r hr hid
      exact h ⟨r, hr, hid⟩
    simp only [mergeChar, h, if_false, Bool.false_eq_true, List.map_append,
      List.map_cons, List.map_nil]
    exact List.Nodup.append hs (List.nodup_singleton _)
      (by simpa [List.disjoint_singleton] using hnotin)

lemma upsertFold_ids (items : List Character) :
    ∀ s : List Character,
      ((items.foldl mergeChar s).map (fun r => r.id)).toFinset =
          (s.map (fun r => r.id)).toFinset ∪ (items.map (fun r => r.id)).toFinset ∧
      ((s.map (fun r => r.id)).Nodup →
        ((items.foldl mergeChar s).map (fun r => r.id)).Nodup) := by
  induction items with
  | nil => intro s; simp
  | cons c items ih =>
    intro s
    constructor
    · have h1 := (ih (mergeChar s c)).1
      rw [List.foldl_cons, h1, mergeChar_ids_toFinset]
      ext x
      simp
    · intro hs
      exact (ih (mergeChar s c)).2 (mergeChar_ids_nodup s c hs)

lemma applyUpserts_ids (batches : List (List Character)) :
    ((applyUpserts batches).map (fun r => r.id)).toFinset =
        ((batches.flatten).map (fun r => r.id)).toFinset ∧
    ((applyUpserts batches).map (fun r => r.id)).Nodup := by
  suffices h : ∀ s : List Character,
      ((batches.foldl (fun s b => (upsert_characters s b).1) s).map
          (fun r => r.id)).toFinset =
        (s.map (fun r => r.id)).toFinset ∪
          ((batches.flatten).map (fun r => r.id)).toFinset ∧
      ((s.map (fun r => r.id)).Nodup →
        ((batches.foldl (fun s b => (upsert_characters s b).1) s).map
            (fun r => r.id)).Nodup) by
    have := h []
    simp only [applyUpserts]
    constructor
    · rw [this.1]; simp
    · exact this.2 (by simp)
  induction batches with
  | nil => intro s; simp
  | cons b batches ih =>
    intro s
    constructor
    · have h1 := (ih ((upsert_characters s b).1)).1
      rw [List.foldl_cons, h1]
      simp only [upsert_characters]
      rw [(upsertFold_ids b s).1]
      ext x
      simp
    · intro hs
      exact (ih ((upsert_characters s b).1)).2 ((upsertFold_ids b s).2 hs)

/-- Claim C7: starting from an empty store, after any sequence of
`upsert_characters` calls (record lists may repeat ids) the row count
reported by `count_characters` equals the number of distinct ids seen; ids
stay unique within the store; and a merge with an existing id overwrites
that row in place — every row carrying the merged id is exactly the merged
record, so no duplicate row is ever created. -/
theorem C7_upsert_distinct_ids :
    (∀ batches : List (List Character),
        count_characters (applyUpserts batches) =
          (((batches.flatten).map (fun r => r.id)).toFinset).card ∧
        ((applyUpserts batches).map (fun r => r.id)).Nodup) ∧
    (∀ (s : List Character) (c : Character),
        c ∈ mergeChar s c ∧
        ∀ r ∈ mergeChar s c, r.id = c.id → r = c) := by
  constructor
  · intro batches
    obtain ⟨hset, hnodup⟩ := applyUpserts_ids batches
    refine ⟨?_, hnodup⟩
    calc count_characters (applyUpserts batches)
        = ((applyUpserts batches).map (fun r => r.id)).length := by
          simp [count_characters]
      _ = ((applyUpserts batches).map (fun r => r.id)).toFinset.card :=
          (List.toFinset_card_of_nodup hnodup).symm
      _ = (((batches.flatten).map (fun r => r.id)).toFinset).card := by rw [hset]
  · intro s c
    constructor
    · by_cases h : s.any (fun r => decide (r.id = c.id))
      · simp only [List.any_eq_true, decide_eq_true_eq] at h
        obtain ⟨r, hr, hid⟩ := h
        have : s.any (fun r => decide (r.id = c.id)) = true := by
          simp only [List.any_eq_true, decide_eq_true_eq]
          exact ⟨r, hr, hid⟩
        simp only [mergeChar, this, if_true]
        refine List.mem_map.mpr ⟨r, hr, ?_⟩
        simp [hid]
      · simp [mergeChar, h]
    · intro r hr hid
      by_cases h : s.any (fun r => decide (r.id = c.id)) <;>
        simp only [mergeChar, h, if_true, if_false, Bool.false_eq_true] at hr
      · obtain ⟨r0, _, hr0⟩ := List.mem_map.mp hr
        by_cases h0 : r0.id = c.id
        · rw [if_pos h0] at hr0; exact hr0.symm
        · rw [if_neg h0] at hr0
          subst hr0
          exact absurd hid h0
      · rcases List.mem_append.mp hr with hmem | hmem
        · exfalso
          simp only [List.any_eq_true, decide_eq_true_eq] at h
          exact h ⟨r, hmem, hid⟩
        · simpa using hmem

/-- Claim C7 witness: upserting [rick], then [rick, morty] (rick repeated)
yields a store of exactly 2 rows, and merging rick into a store already
holding rick keeps rick present without duplication. -/
theorem C7_upsert_distinct_ids_witness :
    count_characters (applyUpserts [[rickC], [rickC, mortyC]]) = 2 ∧
    rickC ∈ mergeChar [rickC] rickC :=
  ⟨((C7_upsert_distinct_ids.1 [[rickC], [rickC, mortyC]]).1).trans (by decide),
    (C7_upsert_distinct_ids.2 [rickC] rickC).1⟩

/-- Claim C4: if the fetch or the upsert step raises during
`refresh_if_stale` or `initial_sync_if_empty`, the `_last_refresh_ts`
module global is left unchanged — it advances only on a path that completed
the entire fetch+upsert — and whenever the error propagates out of the
operation, the advisory lock release is the last recorded action, i.e. the
lock acquired for that operation was released before the error
propagated. -/
theorem C4_failed_refresh_preserves_state (ttl tNow tDone : ℚ) (env : SyncEnv)
    (ts0 : Option ℚ)
    (hfail : (∃ e, env.fetchResult = .error e) ∨
      (∃ raw e, env.fetchResult = .ok raw ∧
        env.upsertResult (filter_character_results raw) = .error e)) :
    (refresh_if_stale ttl env ts0 tNow tDone).lastRefreshTs = ts0 ∧
    (initial_sync_if_empty env ts0 tDone).lastRefreshTs = ts0 ∧
    (∀ e, (refresh_if_stale ttl env ts0 tNow tDone).result = .error e →
      (refresh_if_stale ttl env ts0 tNow tDone).events.getLast? =
        some (.lockRelease REFRESH_LOCK_KEY)) ∧
    (∀ e, (initial_sync_if_empty env ts0 tDone).result = .error e →
      (initial_sync_if_empty env ts0 tDone).events.getLast? =
        some (.lockRelease SEED_LOCK_KEY)) := by
  have hbody : ∀ ts1 : Option ℚ,
      (refreshBody env ts1 tDone).lastRefreshTs = ts1 ∧
      ∀ e, (refreshBody env ts1 tDone).result = .error e →
        (refreshBody env ts1 tDone).events.getLast? =
          some (.lockRelease REFRESH_LOCK_KEY) := by
    intro ts1
    cases hL : haveLock env.lockAttempt with
    | false =>
      constructor
      · simp [refreshBody, withAdvisoryLock, hL]
      · intro e he
        simp [refreshBody, withAdvisoryLock, hL] at he
    | true =>
      rcases hfail with ⟨e0, hf⟩ | ⟨raw, e0, hf, hu⟩
      · constructor
        · simp [refreshBody, withAdvisoryLock, hL, hf]
        · intro e _
          simp [refreshBody, withAdvisoryLock, hL, hf]
      · constructor
        · simp [refreshBody, withAdvisoryLock, hL, hf, hu]
        · intro e _
          simp [refreshBody, withAdvisoryLock, hL, hf, hu]
  have hseed :
      (initial_sync_if_empty env ts0 tDone).lastRefreshTs = ts0 ∧
      ∀ e, (initial_sync_if_empty env ts0 tDone).result = .error e →
        (initial_sync_if_empty env ts0 tDone).events.getLast? =
          some (.lockRelease SEED_LOCK_KEY) := by
    cases hL : haveLock env.lockAttempt with
    | false =>
      constructor
      · simp [initial_sync_if_empty, withAdvisoryLock, hL]
      · intro e he
        simp [initial_sync_if_empty, withAdvisoryLock, hL] at he
    | true =>
      cases hc : env.countResult with
      | error ec =>
        constructor
        · simp [initial_sync_if_empty, withAdvisoryLock, hL, hc]
        · intro e _
          simp [initial_sync_if_empty, withAdvisoryLock, hL, hc]
      | ok c =>
        by_cases hc0 : 0 < c
        · constructor
          · simp [initial_sync_if_empty, withAdvisoryLock, hL, hc, hc0]
          · intro e he
            simp [initial_sync_if_empty, withAdvisoryLock, hL, hc, hc0] at he
        · rcases hfail with ⟨e0, hf⟩ | ⟨raw, e0, hf, hu⟩
          · constructor
            · simp [initial_sync_if_empty, withAdvisoryLock, hL, hc, hc0, hf]
            · intro e _
              simp [initial_sync_if_empty, withAdvisoryLock, hL, hc, hc0, hf]
          · constructor
            · simp [initial_sync_if_empty, withAdvisoryLock, hL, hc, hc0, hf, hu]
            · intro e _
              simp [initial_sync_if_empty, withAdvisoryLock, hL, hc, hc0, hf, hu]
  have hrefresh :
      (refresh_if_stale ttl env ts0 tNow tDone).lastRefreshTs = ts0 ∧
      ∀ e, (refresh_if_stale ttl env ts0 tNow tDone).result = .error e →
        (refresh_if_stale ttl env ts0 tNow tDone).events.getLast? =
          some (.lockRelease REFRESH_LOCK_KEY) := by
    cases ts0 with
    | none => simpa [refresh_if_stale] using hbody none
    | some t =>
      by_cases hfresh : tNow - t ≤ ttl
      · constructor
        · simp [refresh_if_stale, hfresh]
        · intro e he
          simp [refresh_if_stale, hfresh] at he
      · simpa [refresh_if_stale, hfresh] using hbody (some t)
  exact ⟨hrefresh.1, hseed.1, hrefresh.2, hseed.2⟩

/-- Claim C4 witness: a concrete environment whose fetch raises the 503
condition; both operations keep the refresh timestamp at its prior value
and release their lock last. -/
theorem C4_failed_refresh_preserves_state_witness :
    (refresh_if_stale 600
        ⟨.scalar (some true), .ok 0,
          .error (.fetchError (.serviceUnavailable 503
            "Upstream API unavailable after retries")),
          fun _ => .ok 0⟩ (some 10) 1000 1001).lastRefreshTs = some 10 ∧
    (refresh_if_stale 600
        ⟨.scalar (some true), .ok 0,
          .error (.fetchError (.serviceUnavailable 503
            "Upstream API unavailable after retries")),
          fun _ => .ok 0⟩ (some 10) 1000 1001).events.getLast? =
      some (.lockRelease REFRESH_LOCK_KEY) := by
  have h := C4_failed_refresh_preserves_state 600 1000 1001
    ⟨.scalar (some true), .ok 0,
      .error (.fetchError (.serviceUnavailable 503
        "Upstream API unavailable after retries")),
      fun _ => .ok 0⟩ (some 10)
    (Or.inl ⟨.fetchError (.serviceUnavailable 503
      "Upstream API unavailable after retries"), rfl⟩)
  refine ⟨h.1, h.2.2.1 (.fetchError (.serviceUnavailable 503
    "Upstream API unavailable after retries")) ?_⟩
  norm_num [refresh_if_stale, refreshBody, withAdvisoryLock, haveLock]

/-- Claim C5: `initial_sync_if_empty` returns 0 without work on its two
no-op paths.  When the advisory seed lock is not acquired it returns 0
having only attempted the lock — zero calls into the storage count or
upsert operations.  When the lock is held and the store is non-empty (a
check made only after the lock try) it returns 0 having called only the
count, and the lock is released. -/
theorem C5_seed_noop_paths (env : SyncEnv) (ts0 : Option ℚ) (tDone : ℚ) :
    (env.lockAttempt = .scalar (some false) →
      initial_sync_if_empty env ts0 tDone =
        ⟨.ok 0, [.lockTry SEED_LOCK_KEY], ts0⟩) ∧
    (∀ c, haveLock env.lockAttempt = true → env.countResult = .ok c → 0 < c →
      initial_sync_if_empty env ts0 tDone =
        ⟨.ok 0, [.lockTry SEED_LOCK_KEY, .countCall,
          .lockRelease SEED_LOCK_KEY], ts0⟩) := by
  constructor
  · intro hL
    simp [initial_sync_if_empty, withAdvisoryLock, hL, haveLock]
  · intro c hL hc hc0
    simp [initial_sync_if_empty, withAdvisoryLock, hL, hc, hc0]

/-- Claim C5 witness: concrete environments for both no-op paths — a denied
lock (scalar false) and a fail-open lock with a populated store. -/
theorem C5_seed_noop_paths_witness :
    initial_sync_if_empty
        ⟨.scalar (some false), .ok 0, .ok [], fun _ => .ok 0⟩ none 7 =
      ⟨.ok 0, [.lockTry SEED_LOCK_KEY], none⟩ ∧
    initial_sync_if_empty
        ⟨.errored, .ok 3, .ok [], fun _ => .ok 0⟩ none 7 =
      ⟨.ok 0, [.lockTry SEED_LOCK_KEY, .countCall,
        .lockRelease SEED_LOCK_KEY], none⟩ :=
  ⟨(C5_seed_noop_paths ⟨.scalar (some false), .ok 0, .ok [], fun _ => .ok 0⟩
      none 7).1 rfl,
    (C5_seed_noop_paths ⟨.errored, .ok 3, .ok [], fun _ => .ok 0⟩ none 7).2
      3 rfl rfl (by decide)⟩

/-- Claim C6: `refresh_if_stale` refreshes only when stale.  When the last
refresh timestamp is set and no more than `ttl` seconds have elapsed, the
call returns 0 with an empty action trace — no advisory lock attempt, no
upstream fetch, no storage call.  Conversely the refresh lock is attempted
only when the timestamp is unset or strictly more than `ttl` seconds have
elapsed. -/
theorem C6_refresh_only_when_stale (ttl : ℚ) (env : SyncEnv)
    (ts0 : Option ℚ) (tNow tDone : ℚ) :
    (∀ t, ts0 = some t → tNow - t ≤ ttl →
      refresh_if_stale ttl env ts0 tNow tDone = ⟨.ok 0, [], some t⟩) ∧
    (Ev.lockTry REFRESH_LOCK_KEY ∈
        (refresh_if_stale ttl env ts0 tNow tDone).events →
      ts0 = none ∨ ∃ t, ts0 = some t ∧ ttl < tNow - t) := by
  constructor
  · intro t ht hfresh
    subst ht
    simp [refresh_if_stale, hfresh]
  · intro hmem
    cases ts0 with
    | none => exact Or.inl rfl
    | some t =>
      by_cases hfresh : tNow - t ≤ ttl
      · simp [refresh_if_stale, hfresh] at hmem
      · exact Or.inr ⟨t, rfl, not_le.mp hfresh⟩

/-- Claim C6 witness: a second call 100 seconds after a refresh with the
default 600-second TTL returns 0 with no recorded action, and a run that
did attempt the lock is certified stale. -/
theorem C6_refresh_only_when_stale_witness :
    refresh_if_stale 600
        ⟨.scalar (some true), .ok 0, .ok [], fun _ => .ok 0⟩
        (some 100) 200 201 = ⟨.ok 0, [], some 100⟩ ∧
    ((none : Option ℚ) = none ∨
      ∃ t, (none : Option ℚ) = some t ∧ (600 : ℚ) < 200 - t) :=
  ⟨(C6_refresh_only_when_stale 600
      ⟨.scalar (some true), .ok 0, .ok [], fun _ => .ok 0⟩
      (some 100) 200 201).1 100 rfl (by norm_num),
    (C6_refresh_only_when_stale 600
      ⟨.scalar (some true), .ok 0, .ok [], fun _ => .ok 0⟩
      none 200 201).2 (by decide)⟩

lemma odErase_sublist (k : PageKey) : ∀ s : PCStore, (odErase s k).Sublist s
  | [] => by simp [odErase]
  | (k0, e) :: rest => by
    by_cases h : k0 = k
    · simp only [odErase, if_pos h]
      exact (odErase_sublist k rest).cons _
    · simp only [odErase, if_neg h]
      exact (odErase_sublist k rest).cons₂ _

lemma odErase_not_mem_keys (k : PageKey) :
    ∀ s : PCStore, k ∉ (odErase s k).map fun p => p.1
  | [] => by simp [odErase]
  | (k0, e) :: rest => by
    by_cases h : k0 = k
    · simp only [odErase, if_pos h]
      exact odErase_not_mem_keys k rest
    · simp only [odErase, if_neg h, List.map_cons, List.mem_cons, not_or]
      exact ⟨fun hk => h hk.symm, odErase_not_mem_keys k rest⟩

lemma odErase_length_lt (k : PageKey) :
    ∀ s : PCStore, (odGet s k).isSome → (odErase s k).length < s.length
  | [] => by simp [odGet]
  | (k0, e) :: rest => by
    intro hget
    by_cases h : k0 = k
    · simp only [odErase, if_pos h, List.length_cons]
      exact Nat.lt_succ_of_le (odErase_sublist k rest).length_le
    · simp only [odGet, if_neg h] at hget
      simp only [odErase, if_neg h, List.length_cons]
      exact Nat.succ_lt_succ (odErase_length_lt k rest hget)

lemma odGet_odSet (k : PageKey) (e : ℚ × CharPage) :
    ∀ s : PCStore, odGet (odSet s k e) k = some e
  | [] => by simp [odSet, odGet]
  | (k0, e0) :: rest => by
    by_cases h : k0 = k
    · simp [odSet, odGet, h]
    · simp only [odSet, if_neg h, odGet]
      exact odGet_odSet k e rest

lemma odErase_odSet (k : PageKey) (e : ℚ × CharPage) :
    ∀ s : PCStore, odErase (odSet s k e) k = odErase s k
  | [] => by simp [odSet, odErase]
  | (k0, e0) :: rest => by
    by_cases h : k0 = k
    · simp [odSet, odErase, h]
    · simp only [odSet, if_neg h, odErase]
      rw [odErase_odSet k e rest]

lemma odMoveToEnd_odSet (s : PCStore) (k : PageKey) (e : ℚ × CharPage) :
    odMoveToEnd (odSet s k e) k = odErase s k ++ [(k, e)] := by
  simp [odMoveToEnd, odGet_odSet, odErase_odSet]

lemma touchOf_setTouch_self (k : PageKey) (n : Nat) :
    ∀ m : List (PageKey × Nat), touchOf (setTouch m k n) k = n
  | [] => by simp [setTouch, touchOf]
  | (k0, n0) :: rest => by
    by_cases h : k0 = k
    · simp [setTouch, touchOf, h]
    · simp only [setTouch, if_neg h, touchOf]
      exact touchOf_setTouch_self k n rest

lemma touchOf_setTouch_ne (k k2 : PageKey) (n : Nat) (h2 : k2 ≠ k) :
    ∀ m : List (PageKey × Nat), touchOf (setTouch m k n) k2 = touchOf m k2
  | [] => by
    simp only [setTouch, touchOf]
    rw [if_neg (fun hh => h2 hh.symm)]
  | (k0, n0) :: rest => by
    by_cases h : k0 = k
    · simp only [setTouch, if_pos h, touchOf]
      rw [if_neg (fun hh => h2 hh.symm), if_neg (fun hh => h2 (h ▸ hh).symm)]
    · simp only [setTouch, if_neg h, touchOf]
      by_cases hk2 : k0 = k2
      · rw [if_pos hk2, if_pos hk2]
      · rw [if_neg hk2, if_neg hk2]
        exact touchOf_setTouch_ne k k2 n h2 rest

lemma evictLoop_fst_length_le (cap : Nat) :
    ∀ s : PCStore, (evictLoop cap s).1.length ≤ cap
  | [] => by simp [evictLoop]
  | e :: es => by
    by_cases h : cap < es.length + 1
    · simp only [evictLoop, if_pos h]
      exact evictLoop_fst_length_le cap es
    · simp only [evictLoop, if_neg h, List.length_cons]
      omega

lemma evictLoop_fst_sublist (cap : Nat) :
    ∀ s : PCStore, (evictLoop cap s).1.Sublist s
  | [] => by simp [evictLoop]
  | e :: es => by
    by_cases h : cap < es.length + 1
    · simp only [evictLoop, if_pos h]
      exact (evictLoop_fst_sublist cap es).cons _
    · simp [evictLoop, if_neg h]

lemma evictLoop_snd_min (cap : Nat) (m : List (PageKey × Nat)) :
    ∀ s : PCStore,
      s.Pairwise (fun a b => touchOf m a.1 < touchOf m b.1) →
      ∀ rec ∈ (evictLoop cap s).2, ∀ k2 ∈ rec.2,
        touchOf m rec.1 < touchOf m k2
  | [] => by simp [evictLoop]
  | e :: es => by
    intro hp rec hrec k2 hk2
    by_cases h : cap < es.length + 1
    · simp only [evictLoop, if_pos h, List.mem_cons] at hrec
      rcases hrec with hrec | hrec
      · subst hrec
        simp only at hk2
        obtain ⟨b, hb, hbk⟩ := List.mem_map.mp hk2
        subst hbk
        exact (List.pairwise_cons.mp hp).1 b hb
      · exact evictLoop_snd_min cap m es (List.pairwise_cons.mp hp).2
          rec hrec k2 hk2
    · simp [evictLoop, if_neg h] at hrec

lemma evictLoop_keeps_last (cap : Nat) (hcap : 1 ≤ cap) :
    ∀ (l : PCStore) (x : PageKey × ℚ × CharPage),
      ∃ l2 : PCStore, (evictLoop cap (l ++ [x])).1 = l2 ++ [x] ∧ l2.Sublist l
  | [] => by
    intro x
    refine ⟨[], ?_, List.Sublist.refl _⟩
    simp only [List.nil_append, evictLoop]
    rw [if_neg (by simp; omega)]
  | e :: l => by
    intro x
    by_cases h : cap < ((l ++ [x]).length + 1)
    · obtain ⟨l2, hl2, hsub⟩ := evictLoop_keeps_last cap hcap l x
      refine ⟨l2, ?_, hsub.cons _⟩
      simp only [List.cons_append, evictLoop, List.append_eq, if_pos h]
      exact hl2
    · refine ⟨e :: l, ?_, List.Sublist.refl _⟩
      simp only [List.cons_append, evictLoop, List.append_eq, if_neg h]

lemma odGet_append_last (k : PageKey) (e : ℚ × CharPage) :
    ∀ l2 : PCStore, k ∉ (l2.map fun p => p.1) →
      odGet (l2 ++ [(k, e)]) k = some e
  | [] => by simp [odGet]
  | (k0, e0) :: rest => by
    intro hk
    simp only [List.map_cons, List.mem_cons, not_or] at hk
    simp only [List.cons_append, odGet]
    rw [if_neg (fun hh => hk.1 hh.symm)]
    exact odGet_append_last k e rest hk.2

lemma appendEntry_props (store : PCStore) (touch : List (PageKey × Nat))
    (clock : Nat) (k : PageKey) (e : ℚ × CharPage)
    (hnd : (store.map fun p => p.1).Nodup)
    (hpw : store.Pairwise (fun a b => touchOf touch a.1 < touchOf touch b.1))
    (hbd : ∀ p ∈ store, touchOf touch p.1 < clock) :
    (((odErase store k ++ [(k, e)]).map fun p => p.1).Nodup) ∧
    (odErase store k ++ [(k, e)]).Pairwise
      (fun a b => touchOf (setTouch touch k clock) a.1 <
        touchOf (setTouch touch k clock) b.1) ∧
    (∀ p ∈ odErase store k ++ [(k, e)],
      touchOf (setTouch touch k clock) p.1 < clock + 1) := by
  have hsub := odErase_sublist k store
  have hkeys : ∀ p ∈ odErase store k, p.1 ≠ k := by
    intro p hp hpk
    exact odErase_not_mem_keys k store (List.mem_map.mpr ⟨p, hp, hpk⟩)
  have htouch_eq : ∀ p ∈ odErase store k,
      touchOf (setTouch touch k clock) p.1 = touchOf touch p.1 := by
    intro p hp
    exact touchOf_setTouch_ne k p.1 clock (hkeys p hp) touch
  refine ⟨?_, ?_, ?_⟩
  · rw [List.map_append]
    refine List.Nodup.append (List.Nodup.sublist (hsub.map _) hnd)
      (List.nodup_singleton _) ?_
    intro x hx1 hx2
    simp only [List.map_cons, List.map_nil, List.mem_singleton] at hx2
    exact odErase_not_mem_keys k store (hx2 ▸ hx1)
  · rw [List.pairwise_append]
    refine ⟨?_, List.pairwise_singleton _ _, ?_⟩
    · refine List.Pairwise.imp_of_mem ?_ (List.Pairwise.sublist hsub hpw)
      intro a b ha hb hab
      rw [htouch_eq a ha, htouch_eq b hb]
      exact hab
    · intro a ha b hb
      simp only [List.mem_singleton] at hb
      subst hb
      rw [htouch_eq a ha, touchOf_setTouch_self]
      exact hbd a (hsub.subset ha)
  · intro p hp
    rcases List.mem_append.mp hp with hp | hp
    · rw [htouch_eq p hp]
      exact Nat.lt_succ_of_lt (hbd p (hsub.subset hp))
    · simp only [List.mem_singleton] at hp
      subst hp
      rw [touchOf_setTouch_self]
      exact Nat.lt_succ_self clock

lemma cacheStep_inv (ttl : ℚ) (cap : Nat) (r : CacheRun) (op : CacheOp)
    (h : CacheInv cap r) : CacheInv cap (cacheStep ttl cap r op) := by
  obtain ⟨hlen, hnd, hpw, hbd, hev⟩ := h
  cases op with
  | get now k =>
    cases hg : odGet r.store k with
    | none =>
      simp only [cacheStep, pcGet, hg]
      exact ⟨hlen, hnd, hpw, hbd, hev⟩
    | some e =>
      obtain ⟨ts, val⟩ := e
      by_cases hex : now - ts > ttl
      · simp only [cacheStep, pcGet, hg, if_pos hex, Option.isSome_none,
          Bool.false_eq_true, if_false]
        refine ⟨?_, ?_, ?_, ?_, hev⟩
        · exact le_trans (odErase_sublist k r.store).length_le hlen
        · exact List.Nodup.sublist ((odErase_sublist k r.store).map _) hnd
        · exact List.Pairwise.sublist (odErase_sublist k r.store) hpw
        · intro p hp
          exact hbd p ((odErase_sublist k r.store).subset hp)
      · have hmv : odMoveToEnd r.store k =
            odErase r.store k ++ [(k, (ts, val))] := by
          simp [odMoveToEnd, hg]
        have hlt : (odErase r.store k).length < r.store.length :=
          odErase_length_lt k r.store (by simp [hg])
        obtain ⟨h1, h2, h3⟩ :=
          appendEntry_props r.store r.touch r.clock k (ts, val) hnd hpw hbd
        simp only [cacheStep, pcGet, hg, if_neg hex, Option.isSome_some,
          if_true, hmv]
        refine ⟨?_, h1, h2, h3, hev⟩
        rw [List.length_append]
        simp only [List.length_cons, List.length_nil]
        omega
  | put now k v =>
    obtain ⟨h1, h2, h3⟩ :=
      appendEntry_props r.store r.touch r.clock k (now, v) hnd hpw hbd
    simp only [cacheStep, pcPut, odMoveToEnd_odSet]
    refine ⟨?_, ?_, ?_, ?_, ?_⟩
    · exact evictLoop_fst_length_le cap _
    · exact List.Nodup.sublist ((evictLoop_fst_sublist cap _).map _) h1
    · exact List.Pairwise.sublist (evictLoop_fst_sublist cap _) h2
    · intro p hp
      exact h3 p ((evictLoop_fst_sublist cap _).subset hp)
    · intro rec hrec k2 hk2
      rcases List.mem_append.mp hrec with hrec | hrec
      · exact hev rec hrec k2 hk2
      · obtain ⟨p, hp, hpe⟩ := List.mem_map.mp hrec
        subst hpe
        simp only at hk2 ⊢
        exact evictLoop_snd_min cap (setTouch r.touch k r.clock) _ h2 p hp k2 hk2

lemma runCache_inv (ttl : ℚ) (cap : Nat) (ops : List CacheOp) :
    CacheInv cap (runCache ttl cap ops) := by
  suffices h : ∀ r, CacheInv cap r →
      CacheInv cap (ops.foldl (cacheStep ttl cap) r) from
    h _ ⟨by simp, by simp, by simp, by simp, by simp⟩
  induction ops with
  | nil => intro r hr; simpa using hr
  | cons op ops ih =>
    intro r hr
    exact ih _ (cacheStep_inv ttl cap r op hr)

/-- Claim C8: over every sequence of `PageCache.put` and `PageCache.get`
operations run from the empty cache, the store never holds more than
`cap` entries, and every capacity eviction performed by `put` removes the
least-recently-touched key among the entries present at that moment, where
a touch is a `put` of the key or a `get` that found it fresh (both of which
move the key to most-recently-used). -/
theorem C8_lru_bounded_eviction (ttl : ℚ) (cap : Nat) (ops : List CacheOp) :
    (runCache ttl cap ops).store.length ≤ cap ∧
    ∀ rec ∈ (runCache ttl cap ops).evictions, ∀ k2 ∈ rec.2.1,
      touchOf rec.2.2 rec.1 < touchOf rec.2.2 k2 :=
  ⟨(runCache_inv ttl cap ops).1, (runCache_inv ttl cap ops).2.2.2.2⟩

/-- Claim C8 witness: three puts of distinct keys into a capacity-2 cache
keep the store at two entries and evict `pk1`, the least-recently-touched
key, whose recorded touch precedes that of the surviving `pk2`. -/
theorem C8_lru_bounded_eviction_witness :
    (runCache 30 2 [.put 0 pk1 samplePage, .put 0 pk2 samplePage,
        .put 0 pk3 samplePage]).store.length ≤ 2 ∧
    touchOf [(pk1, 0), (pk2, 1), (pk3, 2)] pk1 <
      touchOf [(pk1, 0), (pk2, 1), (pk3, 2)] pk2 :=
  ⟨(C8_lru_bounded_eviction 30 2 [.put 0 pk1 samplePage, .put 0 pk2 samplePage,
      .put 0 pk3 samplePage]).1,
    (C8_lru_bounded_eviction 30 2 [.put 0 pk1 samplePage, .put 0 pk2 samplePage,
      .put 0 pk3 samplePage]).2
      (pk1, [pk2, pk3], [(pk1, 0), (pk2, 1), (pk3, 2)]) (by decide)
      pk2 (by decide)⟩

/-- Claim C9: after `put(k, v)` at time `tPut` into a cache of capacity at
least 1, `get(k)` at time `tGet` with no intervening operation returns `v`
as long as `tGet - tPut <= ttl`; once strictly more than `ttl` seconds have
elapsed, `get(k)` evicts the entry — the key is gone from the resulting
store — and returns absent. -/
theorem C9_get_after_put (ttl : ℚ) (cap : Nat) (store : PCStore)
    (k : PageKey) (v : CharPage) (tPut tGet : ℚ) (hcap : 1 ≤ cap) :
    (tGet - tPut ≤ ttl →
      (pcGet ttl tGet (pcPut cap tPut store k v).1 k).1 = some v) ∧
    (ttl < tGet - tPut →
      (pcGet ttl tGet (pcPut cap tPut store k v).1 k).1 = none ∧
      (pcGet ttl tGet (pcPut cap tPut store k v).1 k).2 =
        odErase (pcPut cap tPut store k v).1 k ∧
      k ∉ (((pcGet ttl tGet (pcPut cap tPut store k v).1 k).2).map
        fun p => p.1)) := by
  obtain ⟨l2, hl2, hsub⟩ :=
    evictLoop_keeps_last cap hcap (odErase store k) (k, (tPut, v))
  have hput : (pcPut cap tPut store k v).1 = l2 ++ [(k, (tPut, v))] := by
    rw [pcPut, odMoveToEnd_odSet]
    exact hl2
  have hk2 : k ∉ l2.map fun p => p.1 := by
    intro hk
    exact odErase_not_mem_keys k store ((hsub.map _).subset hk)
  have hget : odGet (pcPut cap tPut store k v).1 k = some (tPut, v) := by
    rw [hput]
    exact odGet_append_last k (tPut, v) l2 hk2
  constructor
  · intro hfresh
    have hex : ¬tGet - tPut > ttl := not_lt.mpr hfresh
    simp only [pcGet, hget, if_neg hex]
  · intro hstale
    have hex : tGet - tPut > ttl := hstale
    simp only [pcGet, hget, if_pos hex]
    refine ⟨trivial, trivial, ?_⟩
    exact odErase_not_mem_keys k (pcPut cap tPut store k v).1

/-- Claim C9 witness: with TTL 30 and capacity 2, a get 10 seconds after
the put returns the cached page, and a get 40 seconds after the put finds
it expired and returns absent. -/
theorem C9_get_after_put_witness :
    (pcGet 30 10 (pcPut 2 0 [] pk1 samplePage).1 pk1).1 = some samplePage ∧
    (pcGet 30 40 (pcPut 2 0 [] pk1 samplePage).1 pk1).1 = none :=
  ⟨(C9_get_after_put 30 2 [] pk1 samplePage 0 10 (by norm_num)).1
      (by norm_num),
    ((C9_get_after_put 30 2 [] pk1 samplePage 0 40 (by norm_num)).2
      (by norm_num)).1⟩
